import Mathlib

/-!
Verification of the compressible-tree core of `vs/base/browser/ui/tree`
(exercised by `src/vs/base/test/browser/ui/tree/objectTree.test.ts`).

The repository snapshot contains only the test file for the tree widget; the
implementation (`ObjectTree`, `CompressibleObjectTree`, their models) is not
part of the snapshot.  The development below therefore models the tree core
from the design document (`spec.md`): the Node Store, the Identity Tracker,
the Compression Engine, the Navigator and the List Projection, together with
the mutating operations `setChildren`, `setCollapsed`, `updateFilter`,
`setFocus` and the `compressionEnabled` toggle.  All definitions are
executable, so the concrete scenarios of the test file evaluate by `rfl` or
`decide`.
-/

namespace TreeSpec

/-- Modelled from the spec (section 3, Node): one hierarchy element, holding
the opaque caller payload, the collapsed flag and the ordered children.
The same shape serves as the child-descriptor consumed by `setChildren`
(`element`, optional `children`, optional `collapsed`). -/
inductive Node (α : Type) : Type
  | mk (element : α) (collapsed : Bool) (children : List (Node α))

/-- Payload of a node. -/
def Node.element {α : Type} : Node α → α
  | Node.mk e _ _ => e

/-- Collapsed flag of a node. -/
def Node.collapsed {α : Type} : Node α → Bool
  | Node.mk _ c _ => c

/-- Ordered children of a node. -/
def Node.children {α : Type} : Node α → List (Node α)
  | Node.mk _ _ cs => cs

/-- Leaf descriptor: no children, not collapsed. -/
def Node.leaf {α : Type} (e : α) : Node α :=
  Node.mk e false []

/-- Modelled from the spec (section 3): `collapsible` is whether the UI may
toggle `collapsed`; a leaf is never collapsible. -/
def Node.collapsible {α : Type} (n : Node α) : Bool :=
  !n.children.isEmpty

mutual
/-- Modelled from the spec (sections 4.1 and 4.5, the List Projection walk):
the rows a node contributes to the flattened visible sequence.  A node whose
filter result is false contributes nothing, and neither does its subtree
(section 4.1: children filtering does not resurrect a filtered-out parent);
a collapsed node contributes its own row but hides its descendants. -/
def rows {α : Type} (f : α → Bool) : Node α → List α
  | Node.mk e c kids => if f e then e :: (if c then [] else rowsList f kids) else []

/-- Rows contributed by a forest, respecting sibling order. -/
def rowsList {α : Type} (f : α → Bool) : List (Node α) → List α
  | [] => []
  | n :: ns => rows f n ++ rowsList f ns
end

mutual
/-- Pre-order listing of every element in a node, ignoring collapse and
filter state (the raw Node Store contents). -/
def elems {α : Type} : Node α → List α
  | Node.mk e _ cs => e :: elemsList cs

/-- Pre-order listing of every element in a forest. -/
def elemsList {α : Type} : List (Node α) → List α
  | [] => []
  | n :: ns => elems n ++ elemsList ns
end

mutual
/-- Pre-order listing of every element of a node paired with the list of its
ancestors, each ancestor recorded as (element, collapsed flag).  This is the
raw traversal the spec's visible-sequence invariant quantifies over. -/
def preorderAnc {α : Type} (anc : List (α × Bool)) : Node α → List (α × List (α × Bool))
  | Node.mk e c kids => (e, anc) :: preorderAncList (anc ++ [(e, c)]) kids

/-- Pre-order ancestor-annotated listing of a forest. -/
def preorderAncList {α : Type} (anc : List (α × Bool)) : List (Node α) → List (α × List (α × Bool))
  | [] => []
  | n :: ns => preorderAnc anc n ++ preorderAncList anc ns
end

/-- Modelled from the spec (section 3, `revealed`, and section 4.1): a node is
revealed when no ancestor is collapsed and no ancestor is filtered out (a
filtered-out parent folds its whole subtree away). -/
def revealedIn {α : Type} (f : α → Bool) (anc : List (α × Bool)) : Bool :=
  anc.all (fun p => !p.2 && f p.1)

/-- Row selector for the spec-side visible sequence: keep a traversed element
exactly when it is filtered in and revealed. -/
def revealRow {α : Type} (f : α → Bool) (p : α × List (α × Bool)) : Option α :=
  if f p.1 && revealedIn f p.2 then some p.1 else none

/-- Modelled from the spec (section 3, invariant): the visible sequence is
exactly a pre-order traversal of revealed, non-filtered nodes, respecting
sibling order.  This definition follows the invariant's words (traverse all
nodes, keep the revealed filtered-in ones); the walk `rowsList` above follows
the renderer; the two are proved equal below. -/
def visibleSeqSpec {α : Type} (f : α → Bool) (ns : List (Node α)) : List α :=
  (preorderAncList [] ns).filterMap (revealRow f)

mutual
/-- Modelled from the spec (section 4.1, `setChildren` on a non-root parent):
replace the full child sequence of the node whose element is `r`; `none` when
no node of the store has element `r`. -/
def replaceChildrenN {α : Type} [DecidableEq α] (r : α) (kids : List (Node α)) :
    Node α → Option (Node α)
  | Node.mk e c cs =>
    if e = r then some (Node.mk e c kids)
    else
      match replaceChildrenL r kids cs with
      | some cs2 => some (Node.mk e c cs2)
      | none => none

/-- Child replacement over a forest: rebuilds the first subtree containing the
referenced element, leaving the others untouched. -/
def replaceChildrenL {α : Type} [DecidableEq α] (r : α) (kids : List (Node α)) :
    List (Node α) → Option (List (Node α))
  | [] => none
  | n :: ns =>
    match replaceChildrenN r kids n with
    | some n2 => some (n2 :: ns)
    | none =>
      match replaceChildrenL r kids ns with
      | some ns2 => some (n :: ns2)
      | none => none
end

mutual
/-- Modelled from the spec (section 4.1, `setCollapsed`): toggle the collapsed
flag of the node whose element is `r`; a no-op when the node is not
collapsible (a leaf); `none` when the node is unknown. -/
def setCollapsedN {α : Type} [DecidableEq α] (r : α) (b : Bool) : Node α → Option (Node α)
  | Node.mk e c cs =>
    if e = r then
      if cs.isEmpty then some (Node.mk e c cs) else some (Node.mk e b cs)
    else
      match setCollapsedL r b cs with
      | some cs2 => some (Node.mk e c cs2)
      | none => none

/-- Collapse toggling over a forest. -/
def setCollapsedL {α : Type} [DecidableEq α] (r : α) (b : Bool) :
    List (Node α) → Option (List (Node α))
  | [] => none
  | n :: ns =>
    match setCollapsedN r b n with
    | some n2 => some (n2 :: ns)
    | none =>
      match setCollapsedL r b ns with
      | some ns2 => some (n :: ns2)
      | none => none
end

/-- Modelled from the spec (section 3, CompressedNode): a presentation row
wrapping the ordered chain of absorbed elements; its collapse state and
children come from the chain's terminal node. -/
inductive CNode (α : Type) : Type
  | mk (elements : List α) (collapsed : Bool) (children : List (CNode α))

mutual
/-- Modelled from the spec (section 4.3, filtered boundary): drop filtered-out
subtrees before compression candidacy. -/
def pruneN {α : Type} (f : α → Bool) : Node α → Option (Node α)
  | Node.mk e c cs => if f e then some (Node.mk e c (pruneL f cs)) else none

/-- Filter pruning over a forest. -/
def pruneL {α : Type} (f : α → Bool) : List (Node α) → List (Node α)
  | [] => []
  | n :: ns =>
    match pruneN f n with
    | some m => m :: pruneL f ns
    | none => pruneL f ns
end

mutual
/-- Modelled from the spec (section 4.3, chain-building rule): starting at a
node with exactly one visible child, absorb that child into the chain;
absorption stops at a node with zero or two-or-more visible children.  A
chain of length one is just the raw node. -/
def compress {α : Type} : Node α → CNode α
  | Node.mk e _ [k] =>
    match compress k with
    | CNode.mk es c2 cs => CNode.mk (e :: es) c2 cs
  | Node.mk e c kids => CNode.mk [e] c (compressChildren kids)

/-- Compression of a forest of sibling subtrees. -/
def compressChildren {α : Type} : List (Node α) → List (CNode α)
  | [] => []
  | n :: ns => compress n :: compressChildren ns
end

mutual
/-- Rows of the compressed view: each compressed row displays its ordered
chain of elements; a collapsed compressed row hides its descendants. -/
def crows {α : Type} : CNode α → List (List α)
  | CNode.mk es c cs => es :: (if c then [] else crowsList cs)

/-- Rows of a forest of compressed nodes. -/
def crowsList {α : Type} : List (CNode α) → List (List α)
  | [] => []
  | n :: ns => crows n ++ crowsList ns
end

/-- Modelled from the spec (section 7): error taxonomy of the core; an
operation referencing an unknown node fails with `InvalidNode`. -/
inductive TreeError : Type
  | invalidNode

/-- Modelled from the spec (sections 2 and 4): the observable state of the
tree core — the Node Store (`roots`), the current filter predicate, the
identity provider, the Identity Tracker's focus trait (a set of identities),
the Compression Engine's enablement flag and the List Projection (`proj`). -/
structure TreeState (α β : Type) : Type where
  roots : List (Node α)
  filt : α → Bool
  getId : α → β
  focus : List β
  compressionEnabled : Bool
  proj : List α

/-- Modelled from the spec (section 6, configuration surface): a fresh tree
with a filter, an identity provider and compression enabled by default. -/
def initState {α β : Type} (f : α → Bool) (gid : α → β) : TreeState α β :=
  ⟨[], f, gid, [], true, []⟩

/-- Mutating operations of the core (spec sections 4.1, 4.2 and 4.3). -/
inductive TreeOp (α β : Type) : Type
  | setChildren (ref : Option α) (specs : List (Node α))
  | setCollapsed (ref : α) (collapsed : Bool)
  | updateFilter (p : α → Bool)
  | setFocus (elements : List α)
  | updateCompressionEnabled (b : Bool)

/-- Modelled from the spec (section 4.2): resolve an identity to the element
of the first node of the store carrying it, in pre-order. -/
def findById {α β : Type} [DecidableEq β] (gid : α → β) (i : β) (ns : List (Node α)) : Option α :=
  (elemsList ns).find? (fun e => decide (gid e = i))

/-- Identities present in a forest, in pre-order. -/
def idsOf {α β : Type} (gid : α → β) (ns : List (Node α)) : List β :=
  (elemsList ns).map gid

/-- Modelled from the spec (section 4.2): after a subtree replacement, traits
whose identity has a corresponding new node move to it; traits of identities
with no corresponding node are dropped. -/
def pruneFocus {α β : Type} [DecidableEq β] (gid : α → β) (roots : List (Node α))
    (focus : List β) : List β :=
  focus.filter (fun i => decide (i ∈ idsOf gid roots))

/-- Modelled from the spec (sections 4.1, 4.2, 4.3 and 7): one mutating
operation, run synchronously to completion.  A failing operation returns an
error and no new state. -/
def applyOp {α β : Type} [DecidableEq α] [DecidableEq β] :
    TreeOp α β → TreeState α β → Except TreeError (TreeState α β)
  | TreeOp.setChildren none specs, s =>
    Except.ok ⟨specs, s.filt, s.getId, pruneFocus s.getId specs s.focus,
      s.compressionEnabled, rowsList s.filt specs⟩
  | TreeOp.setChildren (some r) specs, s =>
    match replaceChildrenL r specs s.roots with
    | some roots2 =>
      Except.ok ⟨roots2, s.filt, s.getId, pruneFocus s.getId roots2 s.focus,
        s.compressionEnabled, rowsList s.filt roots2⟩
    | none => Except.error TreeError.invalidNode
  | TreeOp.setCollapsed r b, s =>
    match setCollapsedL r b s.roots with
    | some roots2 =>
      Except.ok ⟨roots2, s.filt, s.getId, s.focus, s.compressionEnabled,
        rowsList s.filt roots2⟩
    | none => Except.error TreeError.invalidNode
  | TreeOp.updateFilter p, s =>
    Except.ok ⟨s.roots, p, s.getId, s.focus, s.compressionEnabled, rowsList p s.roots⟩
  | TreeOp.setFocus es, s =>
    Except.ok ⟨s.roots, s.filt, s.getId, es.map s.getId, s.compressionEnabled, s.proj⟩
  | TreeOp.updateCompressionEnabled b, s =>
    Except.ok ⟨s.roots, s.filt, s.getId, s.focus, b, s.proj⟩

/-- One operation with recovery: a failed operation leaves the state as it
was (spec section 7, all-or-nothing per call). -/
def stepR {α β : Type} [DecidableEq α] [DecidableEq β] (op : TreeOp α β) (s : TreeState α β) :
    TreeState α β :=
  match applyOp op s with
  | Except.ok s2 => s2
  | Except.error _ => s

/-- Run a sequence of operations from a state. -/
def run {α β : Type} [DecidableEq α] [DecidableEq β] :
    List (TreeOp α β) → TreeState α β → TreeState α β
  | [], s => s
  | op :: ops, s => run ops (stepR op s)

/-- Modelled from the spec (section 4.2): resolve the focus trait holders to
their live node elements.  An identity whose node is absent — for example
filtered out, hence pruned from the visible store — is excluded from the
result, while the trait assignment itself is retained in `focus` so the node
can reappear when the filter changes. -/
def getFocus {α β : Type} [DecidableEq β] (s : TreeState α β) : List α :=
  s.focus.filterMap (fun i => findById s.getId i (pruneL s.filt s.roots))

/-- Compression Engine output for the current store (spec section 4.3). -/
def compressionView {α β : Type} (s : TreeState α β) : List (CNode α) :=
  compressChildren (pruneL s.filt s.roots)

/-- Rows handed to the renderer: compressed rows when compression is enabled,
otherwise each raw visible node as its own singleton row (spec section 4.3,
toggling `compressionEnabled` off is the identity function on rows). -/
def displayedRows {α β : Type} (s : TreeState α β) : List (List α) :=
  if s.compressionEnabled then crowsList (compressionView s)
  else (rowsList s.filt s.roots).map (fun e => [e])

/-- Modelled from the spec (section 4.4): a cursor over the visible sequence.
Index 0 is the before-first sentinel, index `k + 1` addresses element `k` and
index `view.length + 1` is the after-last sentinel. -/
@[ext]
structure Navigator (α : Type) : Type where
  view : List α
  index : Nat

/-- Element at the cursor, or `none` at a sentinel position. -/
def Navigator.current {α : Type} (n : Navigator α) : Option α :=
  if n.index = 0 then none else n.view[n.index - 1]?

/-- Step the cursor forward, clamping at the after-last sentinel. -/
def Navigator.next {α : Type} (n : Navigator α) : Navigator α :=
  ⟨n.view, min (n.index + 1) (n.view.length + 1)⟩

/-- Step the cursor backward, clamping at the before-first sentinel. -/
def Navigator.previous {α : Type} (n : Navigator α) : Navigator α :=
  ⟨n.view, n.index - 1⟩

/-- Reposition the cursor at the first element. -/
def Navigator.first {α : Type} (n : Navigator α) : Navigator α :=
  ⟨n.view, 1⟩

/-- Reposition the cursor at the last element. -/
def Navigator.last {α : Type} (n : Navigator α) : Navigator α :=
  ⟨n.view, n.view.length⟩

/-- Position of the first occurrence of an element in a list. -/
def posOf {α : Type} [DecidableEq α] : List α → α → Nat
  | [], _ => 0
  | y :: ys, x => if y = x then 0 else posOf ys x + 1

/-- Modelled from the spec (section 4.4): construction of a navigator, either
at the before-first sentinel or from an explicit starting element. -/
def Navigator.fromList {α : Type} [DecidableEq α] (view : List α) (start : Option α) :
    Navigator α :=
  match start with
  | none => ⟨view, 0⟩
  | some x => ⟨view, posOf view x + 1⟩

/-- Navigator over the current visible sequence of a tree state. -/
def navigate {α β : Type} [DecidableEq α] (s : TreeState α β) (start : Option α) :
    Navigator α :=
  Navigator.fromList s.proj start

/-- Iterated `next`. -/
def Navigator.nextN {α : Type} : Nat → Navigator α → Navigator α
  | 0, n => n
  | k + 1, n => (Navigator.nextN k n).next

/-- Iterated `previous`. -/
def Navigator.prevN {α : Type} : Nat → Navigator α → Navigator α
  | 0, n => n
  | k + 1, n => (Navigator.prevN k n).previous

/-- Scenario forest of the navigation tests: root children 0 (with children
10, 11, 12), 1 and 2. -/
def navChildren : List (Node Nat) :=
  [Node.mk 0 false [Node.leaf 10, Node.leaf 11, Node.leaf 12], Node.leaf 1, Node.leaf 2]

/-- Scenario forest with the first root collapsed. -/
def collapsedChildren : List (Node Nat) :=
  [Node.mk 0 true [Node.leaf 10, Node.leaf 11, Node.leaf 12], Node.leaf 1, Node.leaf 2]

/-- Scenario chain of the compression tests: 1 → 11 → 111 → (1111, 1112, 1113). -/
def chainChildren : List (Node Nat) :=
  [Node.mk 1 false [Node.mk 11 false
    [Node.mk 111 false [Node.leaf 1111, Node.leaf 1112, Node.leaf 1113]]]]

/-- Base state over natural-number elements with the identity provider of the
trait test (element mod 100) and an all-pass filter. -/
def baseState : TreeState Nat Nat :=
  initState (fun _ => true) (fun e => e % 100)

/-- State holding the navigation scenario forest. -/
def navState : TreeState Nat Nat :=
  stepR (TreeOp.setChildren none navChildren) baseState

/-- Navigation scenario with the evens filter applied. -/
def evenState : TreeState Nat Nat :=
  run [TreeOp.setChildren none navChildren, TreeOp.updateFilter (fun e => e % 2 == 0)] baseState

/-- Navigation scenario after the evens filter is replaced by the all-pass
filter again. -/
def restoreState : TreeState Nat Nat :=
  stepR (TreeOp.updateFilter (fun _ => true)) evenState

/-- State holding the forest whose first root is collapsed. -/
def collState : TreeState Nat Nat :=
  stepR (TreeOp.setChildren none collapsedChildren) baseState

/-- State holding the compression scenario chain. -/
def chainState : TreeState Nat Nat :=
  stepR (TreeOp.setChildren none chainChildren) baseState

/-- Chain scenario after compression is toggled off. -/
def chainOffState : TreeState Nat Nat :=
  stepR (TreeOp.updateCompressionEnabled false) chainState

/-- Chain scenario after compression is toggled back on. -/
def chainOnState : TreeState Nat Nat :=
  stepR (TreeOp.updateCompressionEnabled true) chainOffState

/-- Chain scenario after the children of node 111 are replaced by the single
child 112. -/
def chainStep1 : TreeState Nat Nat :=
  stepR (TreeOp.setChildren (some 111) [Node.leaf 112]) chainState

/-- Chain scenario after the children of node 112 are replaced by 113. -/
def chainStep2 : TreeState Nat Nat :=
  stepR (TreeOp.setChildren (some 112) [Node.leaf 113]) chainStep1

/-- Chain scenario after the children of node 113 are replaced by 1131. -/
def chainStep3 : TreeState Nat Nat :=
  stepR (TreeOp.setChildren (some 113) [Node.leaf 1131]) chainStep2

/-- Trait scenario: root children 0, 1, 2, 3 and focus on element 1. -/
def traitMidState : TreeState Nat Nat :=
  run [TreeOp.setChildren none [Node.leaf 0, Node.leaf 1, Node.leaf 2, Node.leaf 3],
    TreeOp.setFocus [1]] baseState

/-- Replacement children of the trait scenario. -/
def traitNewChildren : List (Node Nat) :=
  [Node.leaf 100, Node.leaf 101, Node.leaf 102, Node.leaf 103]

/-- Trait scenario after the root children are replaced by 100, 101, 102,
103. -/
def traitFinalState : TreeState Nat Nat :=
  stepR (TreeOp.setChildren none traitNewChildren) traitMidState

/-- Single-row state used to exhibit navigator sentinel behaviour. -/
def singletonState : TreeState Nat Nat :=
  stepR (TreeOp.setChildren none [Node.leaf 0]) baseState

/-- Revealedness splits over an appended ancestor path. -/
theorem revealedIn_append {α : Type} (f : α → Bool) (a b : List (α × Bool)) :
    revealedIn f (a ++ b) = (revealedIn f a && revealedIn f b) := by
  simp [revealedIn, List.all_append]

mutual
/-- Every entry of the ancestor-annotated pre-order of a node extends the
ancestor path the traversal started from. -/
theorem preorderAnc_hasPrefix {α : Type} (anc : List (α × Bool)) (n : Node α) :
    ∀ p ∈ preorderAnc anc n, ∃ t, p.2 = anc ++ t := by
  cases n with
  | mk e c kids =>
    intro p hp
    rw [show preorderAnc anc (Node.mk e c kids)
        = (e, anc) :: preorderAncList (anc ++ [(e, c)]) kids from rfl] at hp
    rcases List.mem_cons.mp hp with h1 | h2
    · exact ⟨[], by simp [h1]⟩
    · obtain ⟨t, ht⟩ := preorderAncList_hasPrefix (anc ++ [(e, c)]) kids p h2
      exact ⟨(e, c) :: t, by simp [ht]⟩

/-- Forest version of `preorderAnc_hasPrefix`. -/
theorem preorderAncList_hasPrefix {α : Type} (anc : List (α × Bool)) (ns : List (Node α)) :
    ∀ p ∈ preorderAncList anc ns, ∃ t, p.2 = anc ++ t := by
  cases ns with
  | nil =>
    intro p hp
    simp [preorderAncList] at hp
  | cons n ns =>
    intro p hp
    rw [show preorderAncList anc (n :: ns)
        = preorderAnc anc n ++ preorderAncList anc ns from rfl] at hp
    rcases List.mem_append.mp hp with h1 | h2
    · exact preorderAnc_hasPrefix anc n p h1
    · exact preorderAncList_hasPrefix anc ns p h2
end

/-- Below a blocked ancestor path (a collapsed or filtered-out ancestor), the
traversal-and-filter selection keeps nothing. -/
theorem preorderAncList_blocked {α : Type} (f : α → Bool) (anc : List (α × Bool))
    (ns : List (Node α)) (hb : revealedIn f anc = false) :
    (preorderAncList anc ns).filterMap (revealRow f) = [] := by
  rw [List.filterMap_eq_nil_iff]
  intro p hp
  obtain ⟨t, ht⟩ := preorderAncList_hasPrefix anc ns p hp
  simp [revealRow, ht, revealedIn_append, hb]

mutual
/-- Filtering the ancestor-annotated pre-order of a node keeps exactly the
walk's rows when every ancestor is uncollapsed and filtered in, and nothing
otherwise. -/
theorem preorderAnc_filterMap {α : Type} (f : α → Bool) (anc : List (α × Bool)) (n : Node α) :
    (preorderAnc anc n).filterMap (revealRow f)
      = if revealedIn f anc then rows f n else [] := by
  cases n with
  | mk e c kids =>
    rw [show preorderAnc anc (Node.mk e c kids)
        = (e, anc) :: preorderAncList (anc ++ [(e, c)]) kids from rfl, List.filterMap_cons]
    cases hra : revealedIn f anc with
    | false =>
      have hb : revealedIn f (anc ++ [(e, c)]) = false := by
        simp [revealedIn_append, hra]
      simp [revealRow, hra, preorderAncList_blocked f _ kids hb]
    | true =>
      cases hfe : f e with
      | false =>
        have hb : revealedIn f (anc ++ [(e, c)]) = false := by
          simp [revealedIn_append, revealedIn, hfe]
        simp [revealRow, hra, hfe, preorderAncList_blocked f _ kids hb, rows]
      | true =>
        cases hc2 : c with
        | true =>
          have hb : revealedIn f (anc ++ [(e, true)]) = false := by
            simp [revealedIn_append, revealedIn]
          simp [revealRow, hra, hfe, preorderAncList_blocked f _ kids hb, rows]
        | false =>
          have hkids := preorderAncList_filterMap f (anc ++ [(e, false)]) kids
          have hok : revealedIn f (anc ++ [(e, false)]) = true := by
            rw [revealedIn_append, hra]
            simp [revealedIn, hfe]
          rw [hok, if_pos rfl] at hkids
          simp [revealRow, hra, hfe, hkids, rows]

/-- Forest version of `preorderAnc_filterMap`. -/
theorem preorderAncList_filterMap {α : Type} (f : α → Bool) (anc : List (α × Bool))
    (ns : List (Node α)) :
    (preorderAncList anc ns).filterMap (revealRow f)
      = if revealedIn f anc then rowsList f ns else [] := by
  cases ns with
  | nil =>
    simp [preorderAncList, rowsList]
  | cons n ns =>
    rw [show preorderAncList anc (n :: ns)
        = preorderAnc anc n ++ preorderAncList anc ns from rfl, List.filterMap_append,
      preorderAnc_filterMap f anc n, preorderAncList_filterMap f anc ns]
    cases hra : revealedIn f anc <;> simp [rowsList, hra]
end

/-- The renderer's walk and the spec's traversal-and-filter description of
the visible sequence agree on every forest and every filter. -/
theorem rowsList_eq_visibleSeqSpec {α : Type} (f : α → Bool) (ns : List (Node α)) :
    rowsList f ns = visibleSeqSpec f ns := by
  have h := preorderAncList_filterMap f [] ns
  simp [revealedIn] at h
  simp [visibleSeqSpec, h]

/-- Projection invariant: the List Projection matches the walk of the
current store under the current filter. -/
def projOk {α β : Type} (s : TreeState α β) : Prop :=
  s.proj = rowsList s.filt s.roots

/-- Every single operation, with failure recovery, preserves the projection
invariant. -/
theorem stepR_projOk {α β : Type} [DecidableEq α] [DecidableEq β]
    (op : TreeOp α β) (s : TreeState α β) (h : projOk s) : projOk (stepR op s) := by
  cases op with
  | setChildren ref specs =>
    cases ref with
    | none => simp [stepR, applyOp, projOk]
    | some r =>
      cases hm : replaceChildrenL r specs s.roots with
      | none => simpa [stepR, applyOp, hm, projOk] using h
      | some roots2 => simp [stepR, applyOp, hm, projOk]
  | setCollapsed r b =>
    cases hm : setCollapsedL r b s.roots with
    | none => simpa [stepR, applyOp, hm, projOk] using h
    | some roots2 => simp [stepR, applyOp, hm, projOk]
  | updateFilter p => simp [stepR, applyOp, projOk]
  | setFocus es => simpa [stepR, applyOp, projOk] using h
  | updateCompressionEnabled b => simpa [stepR, applyOp, projOk] using h

/-- Running any operation sequence preserves the projection invariant. -/
theorem run_projOk {α β : Type} [DecidableEq α] [DecidableEq β]
    (ops : List (TreeOp α β)) (s : TreeState α β) (h : projOk s) : projOk (run ops s) := by
  induction ops generalizing s with
  | nil => simpa [run] using h
  | cons op ops ih => simpa [run] using ih (stepR op s) (stepR_projOk op s h)

mutual
/-- Child replacement fails on a node whose subtree does not contain the
referenced element. -/
theorem replaceChildrenN_eq_none {α : Type} [DecidableEq α] (r : α) (kids : List (Node α))
    (n : Node α) (h : r ∉ elems n) : replaceChildrenN r kids n = none := by
  cases n with
  | mk e c cs =>
    have he : ¬ e = r := by
      intro hx
      exact h (by simp [elems, hx])
    have hcs : r ∉ elemsList cs := by
      intro hx
      exact h (by simp [elems, hx])
    simp [replaceChildrenN, he, replaceChildrenL_eq_none r kids cs hcs]

/-- Forest version of `replaceChildrenN_eq_none`. -/
theorem replaceChildrenL_eq_none {α : Type} [DecidableEq α] (r : α) (kids : List (Node α))
    (ns : List (Node α)) (h : r ∉ elemsList ns) : replaceChildrenL r kids ns = none := by
  cases ns with
  | nil => simp [replaceChildrenL]
  | cons n ns =>
    have h1 : r ∉ elems n := by
      intro hx
      exact h (by simp [elemsList, hx])
    have h2 : r ∉ elemsList ns := by
      intro hx
      exact h (by simp [elemsList, hx])
    simp [replaceChildrenL, replaceChildrenN_eq_none r kids n h1,
      replaceChildrenL_eq_none r kids ns h2]
end

mutual
/-- Collapse toggling fails on a node whose subtree does not contain the
referenced element. -/
theorem setCollapsedN_eq_none {α : Type} [DecidableEq α] (r : α) (b : Bool)
    (n : Node α) (h : r ∉ elems n) : setCollapsedN r b n = none := by
  cases n with
  | mk e c cs =>
    have he : ¬ e = r := by
      intro hx
      exact h (by simp [elems, hx])
    have hcs : r ∉ elemsList cs := by
      intro hx
      exact h (by simp [elems, hx])
    simp [setCollapsedN, he, setCollapsedL_eq_none r b cs hcs]

/-- Forest version of `setCollapsedN_eq_none`. -/
theorem setCollapsedL_eq_none {α : Type} [DecidableEq α] (r : α) (b : Bool)
    (ns : List (Node α)) (h : r ∉ elemsList ns) : setCollapsedL r b ns = none := by
  cases ns with
  | nil => simp [setCollapsedL]
  | cons n ns =>
    have h1 : r ∉ elems n := by
      intro hx
      exact h (by simp [elemsList, hx])
    have h2 : r ∉ elemsList ns := by
      intro hx
      exact h (by simp [elemsList, hx])
    simp [setCollapsedL, setCollapsedN_eq_none r b n h1, setCollapsedL_eq_none r b ns h2]
end

/-- Iterated `next` never changes the underlying view. -/
theorem nextN_view {α : Type} (k : Nat) (n : Navigator α) :
    (Navigator.nextN k n).view = n.view := by
  induction k with
  | zero => rfl
  | succ k ih => simp [Navigator.nextN, Navigator.next, ih]

/-- Index reached by at least one `next` step: forward motion clamped at the
after-last sentinel. -/
theorem nextN_index {α : Type} (k : Nat) (n : Navigator α) :
    (Navigator.nextN (k + 1) n).index = min (n.index + k + 1) (n.view.length + 1) := by
  induction k with
  | zero => simp [Navigator.nextN, Navigator.next]
  | succ k ih =>
    have hv := nextN_view (k + 1) n
    show (Navigator.nextN (k + 1) n).next.index = _
    simp [Navigator.next, hv, ih]
    omega

/-- Iterated `previous` never changes the underlying view. -/
theorem prevN_view {α : Type} (k : Nat) (n : Navigator α) :
    (Navigator.prevN k n).view = n.view := by
  induction k with
  | zero => rfl
  | succ k ih => simp [Navigator.prevN, Navigator.previous, ih]

/-- Index reached by iterated `previous`: backward motion, clamped at the
before-first sentinel by truncated subtraction. -/
theorem prevN_index {α : Type} (k : Nat) (n : Navigator α) :
    (Navigator.prevN k n).index = n.index - k := by
  induction k with
  | zero => rfl
  | succ k ih =>
    show (Navigator.prevN k n).previous.index = _
    simp [Navigator.previous, ih]
    omega

/-- The first occurrence position returned by `posOf` addresses the sought
element. -/
theorem posOf_getElem {α : Type} [DecidableEq α] (l : List α) (x : α) (h : x ∈ l) :
    l[posOf l x]? = some x := by
  induction l with
  | nil => cases h
  | cons y ys ih =>
    by_cases hy : y = x
    · simp [posOf, hy]
    · have hx : x ∈ ys := by
        cases List.mem_cons.mp h with
        | inl h2 => exact absurd h2.symm hy
        | inr h2 => exact h2
      simp [posOf, hy, ih hx]

/-- Stepping a fresh navigator forward `k + 1` times lands on element `k` of
its view (and on the after-last sentinel once the view is exhausted): the
traversal enumerates exactly the visible sequence, in order. -/
theorem fromList_none_nextN_current {α : Type} [DecidableEq α] (l : List α) (k : Nat) :
    ((Navigator.fromList l none).nextN (k + 1)).current = l[k]? := by
  have hv := nextN_view (k + 1) (Navigator.fromList l none)
  have hi := nextN_index k (Navigator.fromList l none)
  have hfv : (Navigator.fromList l none).view = l := rfl
  have hfi : (Navigator.fromList l none).index = 0 := rfl
  rw [hfv] at hv
  rw [hfv, hfi] at hi
  rcases le_or_lt (k + 1) l.length with hk | hk
  · have hidx : (Navigator.nextN (k + 1) (Navigator.fromList l none)).index = k + 1 := by
      rw [hi]; omega
    simp [Navigator.current, hidx, hv]
  · have hidx : (Navigator.nextN (k + 1) (Navigator.fromList l none)).index = l.length + 1 := by
      rw [hi]; omega
    have h1 : l[l.length]? = none := List.getElem?_eq_none (Nat.le_refl l.length)
    have h2 : l[k]? = none := List.getElem?_eq_none (by omega)
    simp [Navigator.current, hidx, hv, h1, h2]

/-- Claim C1: for every tree state produced by any sequence of operations
(`setChildren`, `setCollapsed`, `updateFilter`, plus focus and compression
toggles) from a fresh tree, the List Projection's flattened sequence is
exactly the pre-order traversal of the revealed, filtered-in nodes of the
Node Store, respecting sibling order — at every intermediate state, because
the statement quantifies over every operation sequence. -/
theorem spec_c1_projection_is_preorder {α β : Type} [DecidableEq α] [DecidableEq β]
    (ops : List (TreeOp α β)) (f : α → Bool) (gid : α → β) :
    (run ops (initState f gid)).proj
      = visibleSeqSpec (run ops (initState f gid)).filt (run ops (initState f gid)).roots := by
  have h0 : projOk (initState f gid) := rfl
  have h : (run ops (initState f gid)).proj
      = rowsList (run ops (initState f gid)).filt (run ops (initState f gid)).roots :=
    run_projOk ops (initState f gid) h0
  exact h.trans (rowsList_eq_visibleSeqSpec _ _)

/-- Claim C2: compressing the chain 1 → 11 → 111 → (1111, 1112, 1113) yields
one compressed row whose label sequence is the ordered chain [1, 11, 111]
plus three leaf rows; toggling `compressionEnabled` off exposes each raw node
as its own row; toggling it back on reproduces a compressed structure
identical to the original, and recompressing the unchanged store yields the
same compressed structure (idempotence of the round trip). -/
theorem spec_c2_compression_roundtrip :
    displayedRows chainState = [[1, 11, 111], [1111], [1112], [1113]]
    ∧ chainState.compressionEnabled = true
    ∧ compressionView chainState
        = [CNode.mk [1, 11, 111] false
            [CNode.mk [1111] false [], CNode.mk [1112] false [], CNode.mk [1113] false []]]
    ∧ displayedRows chainOffState = [[1], [11], [111], [1111], [1112], [1113]]
    ∧ chainOnState.compressionEnabled = true
    ∧ compressionView chainOnState = compressionView chainState
    ∧ displayedRows chainOnState = displayedRows chainState :=
  ⟨rfl, rfl, rfl, rfl, rfl, rfl, rfl⟩

/-- Claim C3: with the identity provider element mod 100, after focusing
element 1 and replacing the root children with 100, 101, 102, 103, the focus
resolves to element 101; in general a trait held by an identity present in
both the old and new children moves to the corresponding new node (and
resolves to it whenever that node is not filtered out), an identity absent
from the new children loses the trait, and the replacement succeeds silently
either way; an identity whose node is merely filtered out is excluded from
the resolved focus but keeps the trait assignment. -/
theorem spec_c3_identity_traits {α β : Type} [DecidableEq α] [DecidableEq β] :
    (getFocus traitMidState = [1]
      ∧ traitFinalState.focus = [1]
      ∧ getFocus traitFinalState = [101])
    ∧ (∀ (s : TreeState α β) (specs : List (Node α)) (i : β),
        i ∈ s.focus → i ∈ idsOf s.getId specs →
          i ∈ (stepR (TreeOp.setChildren none specs) s).focus)
    ∧ (∀ (s : TreeState α β) (specs : List (Node α)) (i : β) (x : α),
        i ∈ s.focus → i ∈ idsOf s.getId specs →
          findById s.getId i (pruneL s.filt specs) = some x →
            x ∈ getFocus (stepR (TreeOp.setChildren none specs) s))
    ∧ (∀ (s : TreeState α β) (specs : List (Node α)) (i : β),
        i ∉ idsOf s.getId specs → i ∉ (stepR (TreeOp.setChildren none specs) s).focus)
    ∧ (∀ (s : TreeState α β) (specs : List (Node α)),
        applyOp (TreeOp.setChildren none specs) s
          = Except.ok (stepR (TreeOp.setChildren none specs) s))
    ∧ (getFocus (stepR (TreeOp.updateFilter (fun _ => false)) traitMidState) = []
        ∧ (stepR (TreeOp.updateFilter (fun _ => false)) traitMidState).focus = [1]) := by
  refine ⟨⟨by decide, by decide, by decide⟩, ?_, ?_, ?_, ?_, by decide, by decide⟩
  · intro s specs i hf hid
    simp [stepR, applyOp, pruneFocus, List.mem_filter, hf, hid]
  · intro s specs i x hf hid hfind
    have hmem : i ∈ pruneFocus s.getId specs s.focus := by
      simp [pruneFocus, List.mem_filter, hf, hid]
    simp [getFocus, stepR, applyOp, List.mem_filterMap]
    exact ⟨i, hmem, hfind⟩
  · intro s specs i hid
    simp [stepR, applyOp, pruneFocus, List.mem_filter, hid]
  · intro s specs
    rfl

/-- Claim C3 witness: the trait of identity 1, held in the scenario state, is
preserved by the root replacement with children 100, 101, 102, 103. -/
theorem spec_c3_identity_traits_witness :
    (1 : Nat) ∈ traitMidState.focus
    ∧ (1 : Nat) ∈ idsOf traitMidState.getId traitNewChildren
    ∧ (1 : Nat) ∈ (stepR (TreeOp.setChildren none traitNewChildren) traitMidState).focus :=
  ⟨by decide, by decide,
    (@spec_c3_identity_traits Nat Nat _ _).2.1 traitMidState traitNewChildren 1
      (by decide) (by decide)⟩

/-- Claim C4: navigator traversal is pre-order over revealed, filtered-in
nodes only — stepping a fresh navigator forward enumerates exactly the
visible sequence — and in the concrete evens-filter scenario over
[0 (children 10, 11, 12), 1, 2] the visible sequence is [0, 10, 12, 2],
restoring the all-pass filter yields [0, 10, 11, 12, 1, 2], and a collapsed
subtree is skipped entirely. -/
theorem spec_c4_traversal_order {α : Type} [DecidableEq α] :
    (∀ (l : List α) (k : Nat), ((Navigator.fromList l none).nextN (k + 1)).current = l[k]?)
    ∧ evenState.proj = [0, 10, 12, 2]
    ∧ restoreState.proj = [0, 10, 11, 12, 1, 2]
    ∧ collState.proj = [0, 1, 2]
    ∧ ((navigate evenState none).nextN 1).current = some 0
    ∧ ((navigate evenState none).nextN 2).current = some 10
    ∧ ((navigate evenState none).nextN 3).current = some 12
    ∧ ((navigate evenState none).nextN 4).current = some 2
    ∧ ((navigate evenState none).nextN 5).current = none :=
  ⟨fun l k => fromList_none_nextN_current l k, by decide, by decide, by decide,
    by decide, by decide, by decide, by decide, by decide⟩

/-- Claim C5 counterexample: in a tree whose visible sequence is the single
element 0, stepping past the last element reaches the sentinel none
position, but a subsequent `next` stays at the sentinel instead of
re-entering at the first element, contradicting the claim as stated. -/
theorem spec_c5_counterexample :
    singletonState.proj = [0]
    ∧ (navigate singletonState none).next.current = some 0
    ∧ (navigate singletonState none).next.next.current = none
    ∧ ¬ (navigate singletonState none).next.next.next.current = some 0 :=
  ⟨by decide, by decide, by decide, by decide⟩

/-- Claim C5 (amended): there are two sentinel none positions.  Stepping past
the last element reaches the after-last sentinel and stepping before the
first reaches the before-first sentinel; `previous` from the after-last
sentinel re-enters at the last element and `next` from the before-first
sentinel re-enters at the first; `next` from the after-last sentinel and
`previous` from the before-first sentinel stay at the sentinel, so the
cursor never cycles around to the opposite end. -/
theorem spec_c5_wrap_to_edge {α : Type} (l : List α) :
    ((⟨l, l.length⟩ : Navigator α).next.current = none)
    ∧ ((⟨l, l.length⟩ : Navigator α).next.previous.current = l.getLast?)
    ∧ ((⟨l, l.length⟩ : Navigator α).next.next = (⟨l, l.length⟩ : Navigator α).next)
    ∧ ((⟨l, 1⟩ : Navigator α).previous.current = none)
    ∧ ((⟨l, 1⟩ : Navigator α).previous.next.current = l.head?)
    ∧ ((⟨l, 1⟩ : Navigator α).previous.previous = (⟨l, 1⟩ : Navigator α).previous)
    ∧ ((⟨l, l.length⟩ : Navigator α).current = l.getLast?)
    ∧ ((⟨l, 1⟩ : Navigator α).current = l.head?) := by
  have hnone : l[l.length]? = none := List.getElem?_eq_none (Nat.le_refl _)
  refine ⟨?_, ?_, ?_, ?_, ?_, ?_, ?_, ?_⟩
  · simp [Navigator.next, Navigator.current, hnone]
  · by_cases hL : l.length = 0
    · have he : l = [] := List.length_eq_zero.mp hL
      subst he
      simp [Navigator.next, Navigator.previous, Navigator.current]
    · simp [Navigator.next, Navigator.previous, Navigator.current, hL,
        List.getLast?_eq_getElem?]
  · exact Navigator.ext rfl (by simp [Navigator.next])
  · rfl
  · have hmin : min 1 (l.length + 1) = 1 := by omega
    simp [Navigator.previous, Navigator.next, Navigator.current, hmin,
      List.head?_eq_getElem?]
  · rfl
  · by_cases hL : l.length = 0
    · have he : l = [] := List.length_eq_zero.mp hL
      subst he
      simp [Navigator.current]
    · simp [Navigator.current, hL, List.getLast?_eq_getElem?]
  · simp [Navigator.current, List.head?_eq_getElem?]

/-- Claim C6: starting from the compressed chain 1 → 11 → 111 →
(1111, 1112, 1113), replacing node 111's children with the single child 112,
then that child's children with 113, then 113's children with 1131 re-chains
after each `setChildren`, and the displayed row set matches the compressed
rows expected from the chain rule at every step. -/
theorem spec_c6_incremental_compression :
    displayedRows chainState = [[1, 11, 111], [1111], [1112], [1113]]
    ∧ displayedRows chainStep1 = [[1, 11, 111, 112]]
    ∧ displayedRows chainStep2 = [[1, 11, 111, 112, 113]]
    ∧ displayedRows chainStep3 = [[1, 11, 111, 112, 113, 1131]] :=
  ⟨rfl, rfl, rfl, rfl⟩

/-- Claim C7: a sequence of `next` calls that ends with the cursor at an
element is undone exactly by an equal-length sequence of `previous` calls,
returning the navigator to its starting position — including the sentinel
none position when the sequence began there. -/
theorem spec_c7_navigator_roundtrip {α : Type} (nav : Navigator α) (k : Nat) (x : α)
    (h : (Navigator.nextN k nav).current = some x) :
    Navigator.prevN k (Navigator.nextN k nav) = nav := by
  cases k with
  | zero => rfl
  | succ k =>
    have hv := nextN_view (k + 1) nav
    have hi := nextN_index k nav
    have hne : (Navigator.nextN (k + 1) nav).index ≠ 0 := by
      intro h0
      simp [Navigator.current, h0] at h
    have hlt : (Navigator.nextN (k + 1) nav).index - 1 < nav.view.length := by
      by_contra hge
      push_neg at hge
      have hnone : nav.view[(Navigator.nextN (k + 1) nav).index - 1]? = none :=
        List.getElem?_eq_none hge
      simp [Navigator.current, hne, hv, hnone] at h
    have hidx : (Navigator.nextN (k + 1) nav).index = nav.index + k + 1 := by
      rw [hi] at hlt ⊢
      omega
    refine Navigator.ext ?_ ?_
    · rw [prevN_view, hv]
    · rw [prevN_index, hidx]
      omega

/-- Claim C7 witness: one `next` from a fresh navigator over [5, 6] lands on
element 5, and one `previous` returns to the starting position. -/
theorem spec_c7_navigator_roundtrip_witness :
    (Navigator.nextN 1 (Navigator.fromList [5, 6] none)).current = some 5
    ∧ Navigator.prevN 1 (Navigator.nextN 1 (Navigator.fromList [5, 6] none))
        = Navigator.fromList [5, 6] none :=
  ⟨by decide, spec_c7_navigator_roundtrip (Navigator.fromList [5, 6] none) 1 5 (by decide)⟩

/-- Claim C8: mutating operations are atomic — every failing operation fails
with `InvalidNode` and, run with recovery, leaves the state (hence all
derived views) exactly as before the call; operations referencing an element
absent from the Node Store are exactly the failing ones. -/
theorem spec_c8_atomic_failure {α β : Type} [DecidableEq α] [DecidableEq β] :
    (∀ (op : TreeOp α β) (s : TreeState α β) (e : TreeError),
        applyOp op s = Except.error e → e = TreeError.invalidNode ∧ stepR op s = s)
    ∧ (∀ (r : α) (specs : List (Node α)) (s : TreeState α β), r ∉ elemsList s.roots →
        applyOp (TreeOp.setChildren (some r) specs) s = Except.error TreeError.invalidNode)
    ∧ (∀ (r : α) (b : Bool) (s : TreeState α β), r ∉ elemsList s.roots →
        applyOp (TreeOp.setCollapsed r b) s = Except.error TreeError.invalidNode) := by
  refine ⟨?_, ?_, ?_⟩
  · intro op s e h
    refine ⟨by cases e; rfl, ?_⟩
    simp [stepR, h]
  · intro r specs s h
    simp [applyOp, replaceChildrenL_eq_none r specs s.roots h]
  · intro r b s h
    simp [applyOp, setCollapsedL_eq_none r b s.roots h]

/-- Claim C8 witness: replacing the children of the unknown element 5 in the
empty base state fails with `InvalidNode` and leaves the state unchanged. -/
theorem spec_c8_atomic_failure_witness :
    applyOp (TreeOp.setChildren (some 5) ([] : List (Node Nat))) baseState
        = Except.error TreeError.invalidNode
    ∧ stepR (TreeOp.setChildren (some 5) ([] : List (Node Nat))) baseState = baseState :=
  ⟨rfl,
    ((@spec_c8_atomic_failure Nat Nat _ _).1 (TreeOp.setChildren (some 5) []) baseState
      TreeError.invalidNode rfl).2⟩

/-- Claim C9: a navigator constructed without a starting element begins at
the sentinel none position — its current element is none even over a
non-empty visible sequence — while a navigator constructed from a starting
element present in the visible sequence has that element as its current
one. -/
theorem spec_c9_initial_position {α : Type} [DecidableEq α] :
    (∀ (l : List α), (Navigator.fromList l none).current = none)
    ∧ (∀ (l : List α) (x : α), x ∈ l → (Navigator.fromList l (some x)).current = some x)
    ∧ (navState.proj ≠ []
        ∧ (navigate navState none).current = none
        ∧ (navigate navState (some 1)).current = some 1) := by
  refine ⟨fun l => rfl, ?_, by decide, by decide, by decide⟩
  intro l x h
  simp [Navigator.fromList, Navigator.current, posOf_getElem l x h]

/-- Claim C9 witness: over the view [7, 8], the navigator started at element
7 has current element 7. -/
theorem spec_c9_initial_position_witness :
    (7 : Nat) ∈ [7, 8] ∧ (Navigator.fromList [7, 8] (some 7)).current = some 7 :=
  ⟨by decide, (@spec_c9_initial_position Nat _).2.1 [7, 8] 7 (by decide)⟩

/-- Claim C10: `first` repositions the cursor at the head of the visible
sequence and `last` at its final element; any element they return belongs to
the visible sequence, which contains exactly the revealed, filtered-in
nodes, so elements hidden by collapsing or filtering are never returned. -/
theorem spec_c10_first_last {α β : Type} [DecidableEq α] [DecidableEq β] :
    (∀ (nav : Navigator α), nav.first.current = nav.view.head?)
    ∧ (∀ (nav : Navigator α), nav.last.current = nav.view.getLast?)
    ∧ (∀ (nav : Navigator α) (x : α), nav.first.current = some x → x ∈ nav.view)
    ∧ (∀ (nav : Navigator α) (x : α), nav.last.current = some x → x ∈ nav.view)
    ∧ (∀ (ops : List (TreeOp α β)) (f : α → Bool) (gid : α → β) (x : α),
        x ∈ (navigate (run ops (initState f gid)) none).view
          → x ∈ visibleSeqSpec (run ops (initState f gid)).filt
              (run ops (initState f gid)).roots)
    ∧ ((navigate evenState none).first.current = some 0
        ∧ (navigate evenState none).last.current = some 2
        ∧ (11 : Nat) ∉ evenState.proj ∧ (1 : Nat) ∉ evenState.proj
        ∧ (navigate collState none).first.current = some 0
        ∧ (navigate collState none).last.current = some 2
        ∧ (10 : Nat) ∉ collState.proj) := by
  refine ⟨?_, ?_, ?_, ?_, ?_,
    by decide, by decide, by decide, by decide, by decide, by decide, by decide⟩
  · intro nav
    simp [Navigator.first, Navigator.current, List.head?_eq_getElem?]
  · intro nav
    by_cases hL : nav.view.length = 0
    · have he : nav.view = [] := List.length_eq_zero.mp hL
      simp [Navigator.last, Navigator.current, he]
    · simp [Navigator.last, Navigator.current, hL, List.getLast?_eq_getElem?]
  · intro nav x h
    simp [Navigator.first, Navigator.current] at h
    obtain ⟨hlt, rfl⟩ := List.getElem?_eq_some.mp h
    exact List.getElem_mem hlt
  · intro nav x h
    by_cases hL : nav.view.length = 0
    · simp [Navigator.last, Navigator.current, hL] at h
    · simp [Navigator.last, Navigator.current, hL] at h
      obtain ⟨hlt, rfl⟩ := List.getElem?_eq_some.mp h
      exact List.getElem_mem hlt
  · intro ops f gid x h
    have h0 : projOk (initState f gid) := rfl
    have hp : (run ops (initState f gid)).proj
        = rowsList (run ops (initState f gid)).filt (run ops (initState f gid)).roots :=
      run_projOk ops (initState f gid) h0
    have hv : (navigate (run ops (initState f gid)) none).view
        = (run ops (initState f gid)).proj := rfl
    rw [hv, hp, rowsList_eq_visibleSeqSpec] at h
    exact h

/-- Claim C10 witness: in the evens-filter scenario, `first` returns element
0, which is indeed a member of the visible sequence. -/
theorem spec_c10_first_last_witness :
    (navigate evenState none).first.current = some 0
    ∧ (0 : Nat) ∈ (navigate evenState none).view :=
  ⟨by decide,
    (@spec_c10_first_last Nat Nat _ _).2.2.1 (navigate evenState none) 0 (by decide)⟩

end TreeSpec
